import Mathlib

/-
Shallow embedding of the two source files of decisionengine_modules:

* modules/htcondor/htcondor_query.py : a wrapper around the htcondor python
  bindings that fetches classads, normalizes them (evaluating ExprTree values
  and dropping Undefined attributes) and groups them by attribute values.
* src/decisionengine_modules/graphite_client.py : a helper that turns a flat
  dictionary into graphite metric samples and ships them over a socket.

Python dictionaries are modelled as insertion-ordered association lists.
External effects (the htcondor client call, the filesystem existence check,
the process environment, the socket) are modelled as explicit parameters and
explicit action traces.
-/

/-
Scalar classad values.  The string form mirrors the python str() of the value;
the sentinel string "Undefined" is what str() returns for the classad
undefined value.
-/
inductive Scalar where
  | int : Int → Scalar
  | str : String → Scalar
  | bool : Bool → Scalar
  | undef : Scalar
deriving DecidableEq

/-- String form of a scalar, mirroring python str(). -/
def strForm : Scalar → String
  | .int i => toString i
  | .str s => s
  | .bool b => if b then "True" else "False"
  | .undef => "Undefined"

/-
A raw classad attribute value is either a plain scalar or an ExprTree.  An
ExprTree carries the result of calling eval() on it: none models eval()
raising an exception, some v models eval() returning the scalar v.
-/
inductive CValue where
  | plain : Scalar → CValue
  | exprTree : Option Scalar → CValue
deriving DecidableEq

/-- A raw classad record: an insertion-ordered mapping from attribute name to value. -/
abbrev Record := List (String × CValue)

/-- A normalized record: every kept attribute holds an evaluated scalar. -/
abbrev NRecord := List (String × Scalar)

/-- Python dictionary lookup on a record: the value of the first entry whose key matches exactly. -/
def dictGet (r : Record) (k : String) : Option CValue :=
  match r with
  | [] => none
  | (k2, v) :: rest => if k2 = k then some v else dictGet rest k

/-
Lowercasing, mirroring the python lower() calls in list2dict.  The attribute
names involved are ASCII, where Char.toLower agrees with python lower().
-/
def pyLower (s : String) : String :=
  ⟨s.data.map Char.toLower⟩

/-
Per-attribute normalization shared verbatim by the inner loops of list2dict
and eval_classad_expr.  The try/except around the body is modelled by the
none case of the ExprTree eval result: an attribute whose eval() raises is
dropped.  An attribute whose (possibly evaluated) value has string form
"Undefined" is dropped.  Everything else is kept, evaluated.
-/
def normalizeAttr : CValue → Option Scalar
  | .exprTree none => none
  | .exprTree (some a_value) => if strForm a_value ≠ "Undefined" then some a_value else none
  | .plain v => if strForm v ≠ "Undefined" then some v else none

/-- The dict_el construction: keep the attributes that normalizeAttr keeps, in record order. -/
def normalizeRecord : Record → NRecord
  | [] => []
  | (a, v) :: rest =>
    match normalizeAttr v with
    | some s => (a, s) :: normalizeRecord rest
    | none => normalizeRecord rest

/-- The eval_classad_expr function: normalize each classad, appending results in input order. -/
def eval_classad_expr : List Record → List NRecord
  | [] => []
  | classad :: rest => normalizeRecord classad :: eval_classad_expr rest

/-
The inner scan of list2dict for a multi-attribute key part, mirroring
  for k in list_el:
      if an.lower() == k.lower():
          dict_name.append(list_el[k])
          break
The scan walks the keys of list_el in insertion order and, at the first
case-insensitive match k, appends the dictionary lookup list_el[k].
-/
def scanLower (list_el : Record) (an : String) : List (String × CValue) → List CValue
  | [] => []
  | (k, _v) :: rest =>
    if pyLower an = pyLower k then
      match dictGet list_el k with
      | some v => [v]
      | none => []
    else scanLower list_el an rest

/-
The dict_name tuple construction of list2dict for a list of grouping
attributes: exact lookup first, otherwise the case-insensitive scan,
otherwise the position contributes nothing.
-/
def groupKeyMulti (list_el : Record) : List String → List CValue
  | [] => []
  | an :: rest =>
    (match dictGet list_el an with
     | some v => [v]
     | none => scanLower list_el an list_el) ++ groupKeyMulti list_el rest

/-- Grouping specification: a single attribute name or a list of attribute names. -/
inductive AttrName where
  | single : String → AttrName
  | multi : List String → AttrName

/-- Group key: the raw value itself in the single form, a tuple of raw values in the multi form. -/
inductive GroupKey where
  | val : CValue → GroupKey
  | tup : List CValue → GroupKey
deriving DecidableEq

/-
The dict_name computation of list2dict.  In the multi form the key always
exists.  In the single form the key is the unguarded indexing
list_el[attr_name]: none models the KeyError raised when the attribute is
absent, with no case-insensitive fallback.
-/
def groupKeyOf (attr_name : AttrName) (list_el : Record) : Option GroupKey :=
  match attr_name with
  | .multi l => some (.tup (groupKeyMulti list_el l))
  | .single s =>
    match dictGet list_el s with
    | some v => some (.val v)
    | none => none

/-- The grouped result: an insertion-ordered mapping from group key to the list of records. -/
abbrev Grouped := List (GroupKey × List NRecord)

/-
The two dict_data statements of list2dict:
  if dict_name not in dict_data: dict_data[dict_name] = []
  dict_data[dict_name].append(dict_el)
On an association list this appends to the entry of k when present and
otherwise adds a new entry (k, [v]) at the end.
-/
def dictAppend (d : Grouped) (k : GroupKey) (v : NRecord) : Grouped :=
  match d with
  | [] => [(k, [v])]
  | (k2, l) :: rest => if k2 = k then (k2, l ++ [v]) :: rest else (k2, l) :: dictAppend rest k v

/-
The loop of list2dict over list_data, threading dict_data.  A none result
models the KeyError escaping the loop in the single-attribute form; the
partial dict_data built so far is discarded, as in python.
-/
def list2dictAux (attr_name : AttrName) : List Record → Grouped → Option Grouped
  | [], dict_data => some dict_data
  | list_el :: rest, dict_data =>
    match groupKeyOf attr_name list_el with
    | none => none
    | some dict_name => list2dictAux attr_name rest (dictAppend dict_data dict_name (normalizeRecord list_el))

/-- The list2dict function: group list_data by the attributes named in attr_name. -/
def list2dict (list_data : List Record) (attr_name : AttrName) : Option Grouped :=
  list2dictAux attr_name list_data []

/-- Association-list lookup in a grouped result. -/
def lookupGroup (d : Grouped) (k : GroupKey) : Option (List NRecord) :=
  match d with
  | [] => none
  | (k2, l) :: rest => if k2 = k then some l else lookupGroup rest k

/-
The apply_constraint function: with no constraint function return the data
unchanged, otherwise keep the entries whose value satisfies it.
-/
def apply_constraint {κ ν : Type} (data : List (κ × ν)) (constraint_func : Option (ν → Bool)) : List (κ × ν) :=
  match constraint_func with
  | none => data
  | some f => data.filter (fun p => f p.2)

/-
Python exceptions as seen at the fetch boundary: either a QueryError carrying
its message or any other exception carrying its string form.
-/
inductive PyErr where
  | queryError : String → PyErr
  | other : String → PyErr
deriving DecidableEq

/-- String form of an exception, mirroring the python interpolation of ex. -/
def errMsg : PyErr → String
  | .queryError m => m
  | .other m => m

/-
The exception boundary of CondorQ.fetch.  The try body (reload_config,
Collector, Schedd, query, list2dict) is abstracted as its outcome; on any
exception the except clause builds the schedd and pool names, defaulting to
"default", and raises a QueryError wrapping the message of the cause.
-/
def condorQ_fetch_result {α : Type} (schedd_name pool_name : Option String) (body : Except PyErr α) : Except PyErr α :=
  match body with
  | .ok r => .ok r
  | .error ex =>
    let s := match schedd_name with
             | some n => n
             | none => "default"
    let p := match pool_name with
             | some n => n
             | none => "default"
    .error (.queryError ("Error querying schedd " ++ s ++ " in pool " ++ p ++ " using python bindings: " ++ errMsg ex))

/-
The exception boundary of CondorStatus.fetch.  The except clause starts with
a bare raise statement, so the original exception is re-raised unchanged; the
code below it that builds the pool name and raises
  QueryError("Error querying pool %s using python bindings: %s" % (p, ex))
is unreachable.  The pool name therefore does not influence the result.
-/
def condorStatus_fetch_result {α : Type} (_pool_name : Option String) (body : Except PyErr α) : Except PyErr α :=
  match body with
  | .ok r => .ok r
  | .error ex => .error ex

/-
Truthiness of the optional CONDOR_CONFIG value, mirroring
  if old_condor_config_env:
which is false for an unset variable (None) and for the empty string.
-/
def truthyEnv : Option String → Bool
  | none => false
  | some s => if s = "" then false else true

/-
The config override step of both fetch methods:
  if condor_config and os.path.exists(condor_config):
      os.environ["CONDOR_CONFIG"] = condor_config
The filesystem existence check is the parameter existsF.
-/
def applyOverride (env0 : Option String) (condor_config : Option String) (existsF : String → Bool) : Option String :=
  match condor_config with
  | some c => if c ≠ "" ∧ existsF c = true then some c else env0
  | none => env0

/-
The CONDOR_CONFIG value observed after a fetch call, for either variant.
env0 is the value before the call; the body does not touch CONDOR_CONFIG, so
whether it succeeds (_body_ok) does not matter: the finally clause
  if old_condor_config_env:
      os.environ["CONDOR_CONFIG"] = old_condor_config_env
runs on every exit path and restores the old value only when it was truthy.
-/
def condorFetchFinalEnv (env0 : Option String) (condor_config : Option String) (existsF : String → Bool) (_body_ok : Bool) : Option String :=
  let old_condor_config_env := env0
  let env_after_set := applyOverride env0 condor_config existsF
  if truthyEnv old_condor_config_env then old_condor_config_env else env_after_set

/-
Single-character replacement on a string.  The replacements performed by
sanitize_key are the single characters "." and " ", for which python
str.replace is exactly a per-character substitution.
-/
def replaceChar (s : String) (old new : Char) : String :=
  ⟨s.data.map (fun c => if c = old then new else c)⟩

/-- The sanitize_key function: None passes through, otherwise "." and " " become "_". -/
def sanitize_key : Option String → Option String
  | none => none
  | some key => some (replaceChar (replaceChar key '.' '_') ' ' '_')

/-
The sample list built by Graphite.send_dict:
  for k, v in data.items():
      t = (namespace + "." + k, (now, v))
      post_data.append(t)
The key is used raw; sanitize_key is not called by send_dict.  The numeric
values are opaque to this construction, hence the type parameter.
-/
def send_dict_samples {α : Type} (ns : String) (data : List (String × α)) (now : Int) : List (String × Int × α) :=
  data.map (fun kv => (ns ++ "." ++ kv.1, (now, kv.2)))

/-
Observable side effects of Graphite.send_dict, in order.  warnNoData is the
warning log of the early return; serialize covers pickle.dumps and the
4-byte length framing; netSend covers the socket connect and sendall.  The
optional debug logging of each sample is omitted as a pure log effect.
-/
inductive SendAction where
  | warnNoData : SendAction
  | serialize : SendAction
  | netSend : SendAction
deriving DecidableEq

/-
The effect trace of Graphite.send_dict.  Only data None takes the early
warning return; any present mapping, the empty one included, is pickled and
framed, and sent when send_data is true.  The socket error handler logs and
never re-raises, so the function always returns normally.
-/
def send_dict_actions {α : Type} (data : Option (List (String × α))) (send_data : Bool) : List SendAction :=
  match data with
  | none => [.warnNoData]
  | some _d => [.serialize] ++ (if send_data then [.netSend] else [])

/-
Group-key construction in the words of the spec, for comparison with the
source translation groupKeyMulti: per attribute name in order, take the
value under an exact-case key when present, otherwise the value under the
first case-insensitively matching key, otherwise contribute nothing.
-/
def specGroupKeyMulti (r : Record) : List String → List CValue
  | [] => []
  | an :: rest =>
    (match dictGet r an with
     | some v => [v]
     | none =>
       match r.find? (fun p => decide (pyLower an = pyLower p.1)) with
       | some p => [p.2]
       | none => []) ++ specGroupKeyMulti r rest

/-
Characterization used to state order preservation of grouping: the records
of list_data whose group key is k, in input order, normalized.
-/
def groupFiltered (attr_name : AttrName) (list_data : List Record) (k : GroupKey) : List NRecord :=
  (list_data.filter (fun r => decide (groupKeyOf attr_name r = some k))).map normalizeRecord

/-
Helper lemmas.
-/

/-- The eval_classad_expr loop is a map of normalizeRecord over the input. -/
theorem eval_classad_expr_eq_map (classads : List Record) :
    eval_classad_expr classads = classads.map normalizeRecord := by
  induction classads with
  | nil => rfl
  | cons c rest ih => simp [eval_classad_expr, ih]

/-- A kept attribute value never has string form "Undefined". -/
theorem normalizeAttr_some_ne_undefined {v : CValue} {s : Scalar}
    (h : normalizeAttr v = some s) : strForm s ≠ "Undefined" := by
  cases v with
  | plain w =>
    simp only [normalizeAttr] at h
    split at h
    · cases h; assumption
    · cases h
  | exprTree o =>
    cases o with
    | none => simp [normalizeAttr] at h
    | some w =>
      simp only [normalizeAttr] at h
      split at h
      · cases h; assumption
      · cases h

/-- Every attribute of a normalized record avoids the string form "Undefined". -/
theorem mem_normalizeRecord_ne_undefined :
    ∀ (r : Record) (a : String) (s : Scalar),
      (a, s) ∈ normalizeRecord r → strForm s ≠ "Undefined" := by
  intro r
  induction r with
  | nil => intro a s h; simp [normalizeRecord] at h
  | cons p rest ih =>
    intro a s h
    obtain ⟨k, v⟩ := p
    simp only [normalizeRecord] at h
    cases hv : normalizeAttr v with
    | none => rw [hv] at h; exact ih a s h
    | some w =>
      rw [hv] at h
      rcases List.mem_cons.mp h with h1 | h2
      · cases h1; exact normalizeAttr_some_ne_undefined hv
      · exact ih a s h2

/-
Claim theorems.
-/

/-- Claim C9: apply_constraint with an absent constraint function returns the
data unchanged, for every data mapping (identity law). -/
theorem apply_constraint_none_identity :
    ∀ {κ ν : Type} (data : List (κ × ν)), apply_constraint data none = data := by
  intro κ ν data
  rfl

/-- Claim C6: the normalizer produces an output list whose length equals the
input length and whose record order equals the input order: the record at
every position of the output is the normalization of the record at the same
position of the input. -/
theorem eval_classad_expr_length_and_order :
    ∀ (classads : List Record),
      (eval_classad_expr classads).length = classads.length ∧
      eval_classad_expr classads = classads.map normalizeRecord := by
  intro classads
  refine ⟨?_, eval_classad_expr_eq_map classads⟩
  rw [eval_classad_expr_eq_map]
  exact List.length_map classads normalizeRecord

/-- Claim C1 (code bug evaluation): in CondorStatus.fetch the except clause
begins with a bare raise, so a failure of the external client call is
re-raised as the original exception instead of being wrapped into a
QueryError; CondorQ.fetch does wrap it.  Evaluated at a concrete failing
call. -/
theorem condorStatus_fetch_reraises_original :
    condorStatus_fetch_result (some "vocms099")
        ((Except.error (PyErr.other "Failed to connect")) : Except PyErr (List NRecord)) =
      Except.error (PyErr.other "Failed to connect") ∧
    condorQ_fetch_result (some "schedd1") (some "pool1")
        ((Except.error (PyErr.other "Failed to connect")) : Except PyErr Grouped) =
      Except.error (PyErr.queryError
        "Error querying schedd schedd1 in pool pool1 using python bindings: Failed to connect") :=
  ⟨rfl, rfl⟩

/-- Claim C2 (counterexample): with the CONDOR_CONFIG state unset before the
call and a transient override pointing at an existing source, the state
observed after the call is the override, not the prior unset state, on both
exit paths. -/
theorem condor_config_unset_not_restored :
    condorFetchFinalEnv none (some "/tmp/condor_override") (fun _ => true) false =
      some "/tmp/condor_override" ∧
    condorFetchFinalEnv none (some "/tmp/condor_override") (fun _ => true) true =
      some "/tmp/condor_override" ∧
    some "/tmp/condor_override" ≠ (none : Option String) := by
  refine ⟨by decide, by decide, by decide⟩

/-- Claim C2 (amended): whenever the prior CONDOR_CONFIG value is truthy (set
to a nonempty string), it is restored on every exit path of fetch, success or
failure; when the prior value was unset or empty, the override remains in
effect after the call. -/
theorem condor_config_restored_when_prior_truthy :
    ∀ (env0 condor_config : Option String) (existsF : String → Bool) (body_ok : Bool),
      truthyEnv env0 = true →
      condorFetchFinalEnv env0 condor_config existsF body_ok = env0 := by
  intro env0 condor_config existsF body_ok h
  unfold condorFetchFinalEnv
  simp [h]

/-- Witness for the amended claim C2 at a concrete prior value and override. -/
theorem condor_config_restored_when_prior_truthy_instance :
    truthyEnv (some "/etc/condor_old") = true ∧
    condorFetchFinalEnv (some "/etc/condor_old") (some "/tmp/condor_override") (fun _ => true) false =
      some "/etc/condor_old" :=
  ⟨by decide, condor_config_restored_when_prior_truthy _ _ _ _ (by decide)⟩

/-- Claim C3 (counterexample): send_dict builds the metric path from the raw
key, so for the key "foo.bar baz" the path differs from the sanitized path
the claim prescribes, even though sanitize_key itself behaves as documented. -/
theorem send_dict_path_unsanitized_example :
    send_dict_samples "test" [("foo.bar baz", (5 : Int))] 100 =
      [("test.foo.bar baz", (100, 5))] ∧
    sanitize_key (some "foo.bar baz") = some "foo_bar_baz" ∧
    ("test.foo.bar baz" : String) ≠ "test" ++ "." ++ "foo_bar_baz" := by
  refine ⟨by decide, by decide, by decide⟩

/-- Claim C3 (amended): for every namespace and every key of the input
mapping, the metric path of the sample built for that key is the namespace,
a dot, and the raw key, with no sanitization applied by send_dict. -/
theorem send_dict_path_raw_key :
    ∀ {α : Type} (ns : String) (data : List (String × α)) (now : Int) (k : String) (v : α),
      (k, v) ∈ data → (ns ++ "." ++ k, (now, v)) ∈ send_dict_samples ns data now := by
  intro α ns data now k v h
  exact List.mem_map.mpr ⟨(k, v), h, rfl⟩

/-- Witness for the amended claim C3 at a concrete mapping. -/
theorem send_dict_path_raw_key_instance :
    ("count1", (5 : Int)) ∈ [("count1", (5 : Int)), ("count2", (7 : Int))] ∧
    ("test.count1", ((100 : Int), (5 : Int))) ∈
      send_dict_samples "test" [("count1", (5 : Int)), ("count2", (7 : Int))] 100 :=
  ⟨by decide, send_dict_path_raw_key "test" _ 100 "count1" 5 (by decide)⟩

/-- Claim C4 (counterexample): a present but empty data mapping is not
short-circuited: send_dict serializes the empty sample list and, with sending
enabled, performs the network send, and it logs no warning. -/
theorem send_dict_empty_mapping_not_noop :
    send_dict_actions (some ([] : List (String × Int))) true =
      [SendAction.serialize, SendAction.netSend] ∧
    SendAction.serialize ∈ send_dict_actions (some ([] : List (String × Int))) true ∧
    SendAction.warnNoData ∉ send_dict_actions (some ([] : List (String × Int))) true := by
  refine ⟨by decide, by decide, by decide⟩

/-- Claim C4 (amended): only when the data mapping is absent (None) is the
call a no-op: it logs a warning and returns normally with no serialization
and no network send, whatever the send_data flag. -/
theorem send_dict_none_noop :
    ∀ (send_data : Bool),
      send_dict_actions (none : Option (List (String × Int))) send_data = [SendAction.warnNoData] := by
  intro send_data
  rfl

/-- Claim C7: for every raw record, no normalized record contains an
attribute whose evaluated value, or whose plain value, has string form
"Undefined"; such attributes are removed entirely.  Stated both for the
per-record normalization and for every record produced by
eval_classad_expr. -/
theorem normalizer_omits_undefined :
    ∀ (r : Record) (classads : List Record) (rec : NRecord) (a : String) (s : Scalar),
      ((a, s) ∈ normalizeRecord r → strForm s ≠ "Undefined") ∧
      (rec ∈ eval_classad_expr classads → (a, s) ∈ rec → strForm s ≠ "Undefined") := by
  intro r classads rec a s
  refine ⟨fun h => mem_normalizeRecord_ne_undefined r a s h, fun hrec hmem => ?_⟩
  rw [eval_classad_expr_eq_map] at hrec
  obtain ⟨r0, _, hr0⟩ := List.mem_map.mp hrec
  subst hr0
  exact mem_normalizeRecord_ne_undefined r0 a s hmem

/-- Witness for claim C7 at concrete records, one per conjunct. -/
theorem normalizer_omits_undefined_instance :
    strForm (Scalar.int 3) ≠ "Undefined" ∧ strForm (Scalar.str "busy") ≠ "Undefined" :=
  ⟨(normalizer_omits_undefined [("x", CValue.plain (Scalar.int 3)), ("u", CValue.plain Scalar.undef)]
      [] [] "x" (Scalar.int 3)).1 (by decide),
   (normalizer_omits_undefined [] [[("State", CValue.exprTree (some (Scalar.str "busy")))]]
      [("State", Scalar.str "busy")] "State" (Scalar.str "busy")).2 (by decide) (by decide)⟩

/-- The single-attribute loop of list2dict fails as soon as some record lacks
the attribute, whatever the accumulated dictionary. -/
theorem list2dictAux_single_fail (attr : String) :
    ∀ (l : List Record) (acc : Grouped), (∃ r ∈ l, dictGet r attr = none) →
      list2dictAux (.single attr) l acc = none := by
  intro l
  induction l with
  | nil =>
    intro acc h
    obtain ⟨r, hr, _⟩ := h
    simp at hr
  | cons r0 rest ih =>
    intro acc h
    cases hg : dictGet r0 attr with
    | none => simp [list2dictAux, groupKeyOf, hg]
    | some v =>
      obtain ⟨r, hr, hrn⟩ := h
      rcases List.mem_cons.mp hr with h1 | h2
      · subst h1; rw [hg] at hrn; cases hrn
      · simp only [list2dictAux, groupKeyOf, hg]
        exact ih _ ⟨r, h2, hrn⟩

/-- Claim C10: grouping by a single attribute name (not a list) uses an
unguarded exact-match indexing with no case-insensitive fallback and no
skipping: for every input list containing a record that lacks the grouping
attribute, list2dict raises a lookup error, modelled as none, instead of
producing a grouped result. -/
theorem list2dict_single_missing_attr_fails :
    ∀ (list_data : List Record) (attr : String),
      (∃ r ∈ list_data, dictGet r attr = none) →
      list2dict list_data (.single attr) = none := by
  intro list_data attr h
  exact list2dictAux_single_fail attr list_data [] h

/-- Witness for claim C10: the record has only the lower-case key, so the
exact-match lookup fails even though a case-variant is present. -/
theorem list2dict_single_missing_attr_fails_instance :
    (∃ r ∈ [[("a", CValue.plain (Scalar.int 1))]], dictGet r "A" = none) ∧
    list2dict [[("a", CValue.plain (Scalar.int 1))]] (AttrName.single "A") = none :=
  ⟨by decide, list2dict_single_missing_attr_fails _ "A" (by decide)⟩

/-- On a record whose keys are distinct, membership determines the lookup. -/
theorem dictGet_eq_of_mem_nodup :
    ∀ (r : Record) (k : String) (v : CValue),
      (k, v) ∈ r → (r.map Prod.fst).Nodup → dictGet r k = some v := by
  intro r
  induction r with
  | nil => intro k v h _; simp at h
  | cons p rest ih =>
    intro k v h hnd
    obtain ⟨k2, v2⟩ := p
    simp only [List.map_cons, List.nodup_cons] at hnd
    rcases List.mem_cons.mp h with h1 | h2
    · cases h1
      simp [dictGet]
    · by_cases he : k2 = k
      · subst he
        exact absurd (List.mem_map.mpr ⟨(k2, v), h2, rfl⟩) hnd.1
      · simp only [dictGet, if_neg he]
        exact ih k v h2 hnd.2

/-- On a record with distinct keys, the break-at-first-match scan of list2dict
agrees with taking the value of the first case-insensitive match. -/
theorem scanLower_eq_find (full : Record) (an : String)
    (hnd : (full.map Prod.fst).Nodup) :
    ∀ (l : List (String × CValue)), (∀ p ∈ l, p ∈ full) →
      scanLower full an l =
        (match l.find? (fun p => decide (pyLower an = pyLower p.1)) with
         | some p => [p.2]
         | none => []) := by
  intro l
  induction l with
  | nil => intro _; rfl
  | cons p rest ih =>
    intro hsub
    obtain ⟨k, v⟩ := p
    by_cases hc : pyLower an = pyLower k
    · have hm : (k, v) ∈ full := hsub (k, v) (List.mem_cons_self _ _)
      have hget : dictGet full k = some v := dictGet_eq_of_mem_nodup full k v hm hnd
      simp [scanLower, hc, hget, List.find?]
    · have hrest := ih (fun q hq => hsub q (List.mem_cons_of_mem _ hq))
      simp [scanLower, hc, List.find?, hrest]

/-- The dict_name tuple of list2dict agrees with the spec description of the
group key on records with distinct keys. -/
theorem groupKeyMulti_eq_spec (r : Record) (hnd : (r.map Prod.fst).Nodup) :
    ∀ (attrs : List String), groupKeyMulti r attrs = specGroupKeyMulti r attrs := by
  intro attrs
  induction attrs with
  | nil => rfl
  | cons an rest ih =>
    simp only [groupKeyMulti, specGroupKeyMulti, ih]
    cases h : dictGet r an with
    | some v => rfl
    | none =>
      have := scanLower_eq_find r an hnd r (fun p hp => hp)
      rw [this]

/-- Claim C5: for every record with distinct keys and every ordered list of
grouping attribute names, the group key built by list2dict is the tuple
taking, per attribute name in order, the value under an exact-case key match
when present, otherwise the value under the first case-insensitively
matching key, otherwise contributing no element. -/
theorem groupKeyMulti_matches_spec :
    ∀ (r : Record) (attrs : List String),
      (r.map Prod.fst).Nodup →
      groupKeyOf (.multi attrs) r = some (.tup (specGroupKeyMulti r attrs)) := by
  intro r attrs hnd
  simp only [groupKeyOf]
  rw [groupKeyMulti_eq_spec r hnd attrs]

/-- Witness for claim C5: the record with keys a and B grouped by the list
A, B gets the key tuple of the values 1 and 2. -/
theorem groupKeyMulti_matches_spec_instance :
    (([("a", CValue.plain (Scalar.int 1)), ("B", CValue.plain (Scalar.int 2))] : Record).map Prod.fst).Nodup ∧
    groupKeyOf (.multi ["A", "B"]) [("a", CValue.plain (Scalar.int 1)), ("B", CValue.plain (Scalar.int 2))] =
      some (.tup [CValue.plain (Scalar.int 1), CValue.plain (Scalar.int 2)]) :=
  ⟨by decide,
   (groupKeyMulti_matches_spec [("a", CValue.plain (Scalar.int 1)), ("B", CValue.plain (Scalar.int 2))]
      ["A", "B"] (by decide)).trans (by decide)⟩

/-- Unfolding of the filtered-records characterization on a cons. -/
theorem groupFiltered_cons (attr_name : AttrName) (r : Record) (rest : List Record) (k : GroupKey) :
    groupFiltered attr_name (r :: rest) k =
      if groupKeyOf attr_name r = some k then
        normalizeRecord r :: groupFiltered attr_name rest k
      else groupFiltered attr_name rest k := by
  simp only [groupFiltered, List.filter]
  by_cases h : groupKeyOf attr_name r = some k
  · simp [h]
  · simp [h]

/-- Appending a record under key k makes the entry of k grow by that record. -/
theorem lookupGroup_dictAppend_self (d : Grouped) (k : GroupKey) (v : NRecord) :
    lookupGroup (dictAppend d k v) k = some ((lookupGroup d k).getD [] ++ [v]) := by
  induction d with
  | nil => simp [dictAppend, lookupGroup]
  | cons p rest ih =>
    obtain ⟨k2, l⟩ := p
    by_cases h : k2 = k
    · subst h
      simp [dictAppend, lookupGroup]
    · simp [dictAppend, lookupGroup, h, ih]

/-- Appending a record under key k leaves every other entry unchanged. -/
theorem lookupGroup_dictAppend_ne (d : Grouped) (k k3 : GroupKey) (v : NRecord) (h : k3 ≠ k) :
    lookupGroup (dictAppend d k v) k3 = lookupGroup d k3 := by
  have hks : k ≠ k3 := Ne.symm h
  induction d with
  | nil => simp [dictAppend, lookupGroup, if_neg hks]
  | cons p rest ih =>
    obtain ⟨k2, l⟩ := p
    by_cases h2 : k2 = k
    · subst h2
      simp [dictAppend, lookupGroup, if_neg hks]
    · by_cases h3 : k2 = k3
      · subst h3
        simp [dictAppend, lookupGroup, h2]
      · simp [dictAppend, lookupGroup, h2, h3, ih]

/-- Invariant of the grouping loop: the entry of every key in the final
dictionary is its entry in the accumulator extended by the normalized
matching records of the remaining input, in input order. -/
theorem list2dictAux_lookup_eq (attr_name : AttrName) :
    ∀ (l : List Record) (acc g : Grouped),
      list2dictAux attr_name l acc = some g → ∀ (k : GroupKey),
        lookupGroup g k =
          (match lookupGroup acc k with
           | some recs => some (recs ++ groupFiltered attr_name l k)
           | none =>
             if groupFiltered attr_name l k = [] then none
             else some (groupFiltered attr_name l k)) := by
  intro l
  induction l with
  | nil =>
    intro acc g h k
    simp only [list2dictAux] at h
    cases h
    have hf : groupFiltered attr_name [] k = [] := rfl
    rw [hf]
    cases hl : lookupGroup acc k with
    | some recs => simp
    | none => simp
  | cons r rest ih =>
    intro acc g h k
    simp only [list2dictAux] at h
    cases hk : groupKeyOf attr_name r with
    | none => rw [hk] at h; cases h
    | some kr =>
      rw [hk] at h
      have hrec := ih (dictAppend acc kr (normalizeRecord r)) g h k
      rw [groupFiltered_cons]
      by_cases hkk : kr = k
      · subst hkk
        rw [if_pos hk]
        rw [lookupGroup_dictAppend_self] at hrec
        cases hl : lookupGroup acc kr with
        | some recs =>
          rw [hl] at hrec
          simp only [Option.getD_some] at hrec
          rw [hrec]
          simp [List.append_assoc]
        | none =>
          rw [hl] at hrec
          simp only [Option.getD_none, List.nil_append] at hrec
          rw [hrec]
          simp
      · have hne : (some kr : Option GroupKey) ≠ some k := by
          intro he
          exact hkk (Option.some.inj he)
        have hgne : ¬ groupKeyOf attr_name r = some k := by
          rw [hk]; exact hne
        rw [if_neg hgne]
        rw [lookupGroup_dictAppend_ne acc kr k (normalizeRecord r) (Ne.symm hkk)] at hrec
        exact hrec

/-- Claim C8: for every input record list and grouping specification, every
key present in the grouped result maps to a non-empty sequence, and the
sequence of a key is exactly the normalized matching records of the input in
their original relative order. -/
theorem list2dict_group_nonempty_and_ordered :
    ∀ (list_data : List Record) (attr_name : AttrName) (g : Grouped) (k : GroupKey) (recs : List NRecord),
      list2dict list_data attr_name = some g →
      lookupGroup g k = some recs →
      recs ≠ [] ∧ recs = groupFiltered attr_name list_data k := by
  intro list_data attr_name g k recs h hl
  have hinv := list2dictAux_lookup_eq attr_name list_data [] g h k
  simp only [lookupGroup] at hinv
  rw [hl] at hinv
  by_cases hf : groupFiltered attr_name list_data k = []
  · rw [if_pos hf] at hinv
    cases hinv
  · rw [if_neg hf] at hinv
    have hr : recs = groupFiltered attr_name list_data k := Option.some.inj hinv
    exact ⟨by rw [hr]; exact hf, hr⟩

/-- Witness for claim C8: two records with the same key end up in one group,
non-empty and in input order. -/
theorem list2dict_group_nonempty_and_ordered_instance :
    list2dict
        [[("Name", CValue.plain (Scalar.str "slot1")), ("State", CValue.plain (Scalar.str "Busy"))],
         [("Name", CValue.plain (Scalar.str "slot1")), ("State", CValue.plain (Scalar.str "Idle"))]]
        (.single "Name") =
      some [(GroupKey.val (CValue.plain (Scalar.str "slot1")),
             [[("Name", Scalar.str "slot1"), ("State", Scalar.str "Busy")],
              [("Name", Scalar.str "slot1"), ("State", Scalar.str "Idle")]])] ∧
    lookupGroup
        [(GroupKey.val (CValue.plain (Scalar.str "slot1")),
          [[("Name", Scalar.str "slot1"), ("State", Scalar.str "Busy")],
           [("Name", Scalar.str "slot1"), ("State", Scalar.str "Idle")]])]
        (GroupKey.val (CValue.plain (Scalar.str "slot1"))) =
      some [[("Name", Scalar.str "slot1"), ("State", Scalar.str "Busy")],
            [("Name", Scalar.str "slot1"), ("State", Scalar.str "Idle")]] ∧
    ([[("Name", Scalar.str "slot1"), ("State", Scalar.str "Busy")],
      [("Name", Scalar.str "slot1"), ("State", Scalar.str "Idle")]] ≠ ([] : List NRecord) ∧
     [[("Name", Scalar.str "slot1"), ("State", Scalar.str "Busy")],
      [("Name", Scalar.str "slot1"), ("State", Scalar.str "Idle")]] =
       groupFiltered (.single "Name")
         [[("Name", CValue.plain (Scalar.str "slot1")), ("State", CValue.plain (Scalar.str "Busy"))],
          [("Name", CValue.plain (Scalar.str "slot1")), ("State", CValue.plain (Scalar.str "Idle"))]]
         (GroupKey.val (CValue.plain (Scalar.str "slot1")))) :=
  ⟨by decide, by decide,
   list2dict_group_nonempty_and_ordered
     [[("Name", CValue.plain (Scalar.str "slot1")), ("State", CValue.plain (Scalar.str "Busy"))],
      [("Name", CValue.plain (Scalar.str "slot1")), ("State", CValue.plain (Scalar.str "Idle"))]]
     (.single "Name")
     [(GroupKey.val (CValue.plain (Scalar.str "slot1")),
       [[("Name", Scalar.str "slot1"), ("State", Scalar.str "Busy")],
        [("Name", Scalar.str "slot1"), ("State", Scalar.str "Idle")]])]
     (GroupKey.val (CValue.plain (Scalar.str "slot1")))
     [[("Name", Scalar.str "slot1"), ("State", Scalar.str "Busy")],
      [("Name", Scalar.str "slot1"), ("State", Scalar.str "Idle")]]
     (by decide) (by decide)⟩
